import Mathlib

/- Verification development for the nodecg-shookie-stream-suite repository.
   Part 1 embeds the pure logic of src/extension/validate.js,
   src/extension/test-alerts.js (handleChatMessage) and the viewport
   utilities. Part 2 models the danmaku overlay engine described in the
   design documents. Machine numbers are modelled as rationals; JavaScript
   non-finite values (NaN, Infinity) are modelled explicitly. -/

namespace ShookieSuite

/-- A JavaScript number: either a finite value (modelled as a rational),
NaN, or one of the two infinities. -/
inductive JSNum
  | fin (q : ℚ)
  | nan
  | posInf
  | negInf
deriving DecidableEq

/-- A JavaScript value as far as the validation code inspects it:
undefined, null, a boolean, a number, or a string. -/
inductive JSVal
  | undefined
  | null
  | bool (b : Bool)
  | num (n : JSNum)
  | str (s : String)
deriving DecidableEq

/-- Number.isFinite: true exactly on finite numbers. -/
def JSNum.isFinite : JSNum → Bool
  | .fin _ => true
  | _ => false

/-- The JavaScript Number(val) conversion. String-to-number parsing is
abstracted as the parameter strToNum, since the validation logic only
asks whether the result is finite. -/
def toNumber (strToNum : String → JSNum) : JSVal → JSNum
  | .undefined => .nan
  | .null => .fin 0
  | .bool b => .fin (if b then 1 else 0)
  | .num n => n
  | .str s => strToNum s

/-- Embeds clamp from src/extension/validate.js lines 19-21:
Math.min(Math.max(val, min), max). The JS parameters min and max are
renamed lo and hi to avoid clashing with the Lean functions. -/
def clamp (val lo hi : ℚ) : ℚ :=
  min (max val lo) hi

/-- Embeds parseNumber from src/extension/validate.js lines 29-32:
Number(val) if finite, else the fallback. -/
def parseNumber (strToNum : String → JSNum) (val : JSVal) (fallback : ℚ) : ℚ :=
  match toNumber strToNum val with
  | .fin q => q
  | _ => fallback

/-- Embeds parseBoolean from src/extension/validate.js lines 40-45. -/
def parseBoolean (val : JSVal) (fallback : Bool) : Bool :=
  match val with
  | .bool b => b
  | .str s => if s = "true" then true else if s = "false" then false else fallback
  | _ => fallback

/-- A min-max pair from the RANGES table of src/extension/constants.js. -/
structure RangeSpec where
  min : ℚ
  max : ℚ

/-- RANGES.SPEED_MULT from constants.js: 0.25 to 3.0. -/
def RANGES_SPEED_MULT : RangeSpec := ⟨1/4, 3⟩

/-- RANGES.SCALE_MODIFIER from constants.js: 0.5 to 2.0. -/
def RANGES_SCALE_MODIFIER : RangeSpec := ⟨1/2, 2⟩

/-- DEFAULTS.SPEED_MULT from constants.js. -/
def DEFAULTS_SPEED_MULT : ℚ := 1

/-- DEFAULTS.SCALE_MODIFIER from constants.js. -/
def DEFAULTS_SCALE_MODIFIER : ℚ := 1

/-- The raw danmaku settings object as validateDanmakuSettings reads it:
each field may hold any JavaScript value (undef models a missing field). -/
structure DanmakuRaw where
  enabled : JSVal
  speedMult : JSVal
  scaleModifier : JSVal
  showUsernames : JSVal
  showEmotes : JSVal
  showEmojis : JSVal
  showText : JSVal

/-- The validated danmaku settings record of src/extension/types.js. -/
structure DanmakuSettings where
  enabled : Bool
  speedMult : ℚ
  scaleModifier : ℚ
  showUsernames : Bool
  showEmotes : Bool
  showEmojis : Bool
  showText : Bool

/-- Optional-chaining access settings?.field: undefined when the settings
object is null or undefined. -/
def getField (settings : Option DanmakuRaw) (f : DanmakuRaw → JSVal) : JSVal :=
  match settings with
  | some s => f s
  | none => .undefined

/-- Embeds validateDanmakuSettings from src/extension/validate.js lines
68-89: each numeric field is parsed with a default fallback and clamped
into its RANGES bound; each boolean field is parsed with its default. -/
def validateDanmakuSettings (strToNum : String → JSNum)
    (settings : Option DanmakuRaw) : DanmakuSettings :=
  ⟨parseBoolean (getField settings DanmakuRaw.enabled) true,
   clamp (parseNumber strToNum (getField settings DanmakuRaw.speedMult) DEFAULTS_SPEED_MULT)
     RANGES_SPEED_MULT.min RANGES_SPEED_MULT.max,
   clamp (parseNumber strToNum (getField settings DanmakuRaw.scaleModifier) DEFAULTS_SCALE_MODIFIER)
     RANGES_SCALE_MODIFIER.min RANGES_SCALE_MODIFIER.max,
   parseBoolean (getField settings DanmakuRaw.showUsernames) false,
   parseBoolean (getField settings DanmakuRaw.showEmotes) true,
   parseBoolean (getField settings DanmakuRaw.showEmojis) false,
   parseBoolean (getField settings DanmakuRaw.showText) true⟩

/-- The validated blocklist record of validateBlocklistSettings. -/
structure BlocklistSettings where
  usernames : List String

/-- JavaScript toLowerCase, modelled as ASCII case folding applied to each
character of the string. -/
def jsToLower (s : String) : String :=
  String.mk (s.data.map Char.toLower)

/-- Embeds validateBlocklistSettings from src/extension/validate.js lines
136-143: if settings?.usernames is an array, every entry is lowercased;
otherwise the list is empty. -/
def validateBlocklistSettings (usernames : Option (List String)) : BlocklistSettings :=
  ⟨match usernames with
    | some us => us.map jsToLower
    | none => []⟩

/-- Embeds isBlocked from src/extension/validate.js lines 223-228: false
when the blocklist is not a nonempty array, otherwise
blocklist.includes(username.toLowerCase()). -/
def isBlocked (username : String) (blocklist : List String) : Bool :=
  if blocklist.isEmpty then false
  else blocklist.contains (jsToLower username)

/-- An inline emote annotation of a chat message. -/
structure Emote where
  name : String
  imageRef : String
  startIndex : Nat
  endIndex : Nat
deriving DecidableEq

/-- The user sub-object of a raw chat-message event. -/
structure UserRaw where
  name : Option String
  color : Option String
  badges : Option (List String)
deriving DecidableEq

/-- The message sub-object of a raw chat-message event. -/
structure MessageMetaRaw where
  displayName : Option String
deriving DecidableEq

/-- The raw chat-message event payload as normalizeChatMessage reads it.
An absent string field is none; a present field holds the string, which
may be empty (empty strings are falsy in JavaScript). -/
structure ChatData where
  messageId : Option String
  text : Option String
  user : Option UserRaw
  message : Option MessageMetaRaw
  emotes : Option (List Emote)
deriving DecidableEq

/-- JavaScript falsiness of an optional string field: missing or empty. -/
def strFalsy : Option String → Bool
  | none => true
  | some s => s.isEmpty

/-- JavaScript a || b for an optional string field with a string fallback:
the field value unless it is missing or empty. -/
def jsOrStr (v : Option String) (fallback : String) : String :=
  match v with
  | some s => if s.isEmpty then fallback else s
  | none => fallback

/-- The normalized message record of src/extension/types.js. -/
structure NormalizedMessage where
  messageId : String
  username : String
  text : String
  color : String
  badges : List String
  emotes : List Emote
deriving DecidableEq

/-- Embeds normalizeChatMessage from src/extension/validate.js lines
189-215: null when the payload is missing or lacks a truthy messageId or
text; otherwise the normalized record with fallback username, color,
badges and emotes. -/
def normalizeChatMessage (data : Option ChatData) : Option NormalizedMessage :=
  match data with
  | none => none
  | some d =>
    if strFalsy d.messageId || strFalsy d.text then none
    else
      some ⟨d.messageId.getD "",
            jsOrStr (d.user.bind UserRaw.name)
              (jsOrStr (d.message.bind MessageMetaRaw.displayName) "Unknown"),
            d.text.getD "",
            jsOrStr (d.user.bind UserRaw.color) "#FFFFFF",
            (d.user.bind UserRaw.badges).getD [],
            d.emotes.getD []⟩

/-- The externally visible outcome of handleChatMessage: whether credits
were tracked, and the message forwarded as a danmaku:message, if any. -/
structure ChatOutcome where
  creditsTracked : Bool
  forwarded : Option NormalizedMessage
deriving DecidableEq

/-- Embeds handleChatMessage from src/extension/test-alerts.js lines
496-518: a payload that fails normalization is dropped before credits are
tracked or anything is forwarded; a blocked username is dropped after
credits tracking; otherwise the normalized message is forwarded. -/
def handleChatMessage (blocklist : List String) (data : Option ChatData) : ChatOutcome :=
  match normalizeChatMessage data with
  | none => ⟨false, none⟩
  | some m =>
    if isBlocked m.username blocklist then ⟨true, none⟩
    else ⟨true, some m⟩

/-- Embeds calculateResponsiveFontSize from the viewport utilities
(src/unnamed/part_001 lines 37-41): autoSize = H * percentOfHeight,
clamped by Math.min(Math.max(autoSize, min), max). The viewport height H
read from getViewportDimensions is passed as a parameter. -/
def calculateResponsiveFontSize (H percentOfHeight lo hi : ℚ) : ℚ :=
  min (max (H * percentOfHeight) lo) hi

/-- Embeds calculateDanmakuBaseFontSize from the viewport utilities
(src/unnamed/part_001 lines 109-113): 3.5 percent of viewport height,
clamped between 24 and 100 pixels. -/
def calculateDanmakuBaseFontSize (H : ℚ) : ℚ :=
  calculateResponsiveFontSize H (7/200) 24 100

/- ===== Part 2: the danmaku overlay engine =====
The engine itself lives in graphics/danmaku.html, which is not among the
source files here; only the specification and the architecture documents
describe it. Every definition in this part is therefore modelled from the
spec. -/

/-- Modelled from the spec: HOLD_DELAY_MS, the fixed grace period of the
Intake Stage (5000 ms); the spec gives the engine source as missing. -/
def HOLD_DELAY_MS : ℚ := 5000

/-- Modelled from the spec: MAX_PENDING, the bound of the Pending Queue
(600); the spec gives the engine source as missing. -/
def MAX_PENDING : ℕ := 600

/-- Modelled from the spec: DRAIN_BUDGET_PER_FRAME, the cap on placement
attempts per frame (6); the spec gives the engine source as missing. -/
def DRAIN_BUDGET_PER_FRAME : ℕ := 6

/-- Modelled from the spec: a message of the danmaku engine, carrying its
identity and the progressively populated lifecycle timestamps (section 3
of the spec); the engine source graphics/danmaku.html is missing. -/
structure Msg where
  id : String
  username : String
  arrivalAt : ℚ
  holdReleaseAt : ℚ
  pendingAt : Option ℚ
deriving DecidableEq

/-- Modelled from the spec: an active (placed, moving) message with its
assigned row, horizontal position x (left edge), speed in pixels per
second and measured width; the engine source is missing. -/
structure Active where
  msg : Msg
  row : ℕ
  x : ℚ
  speed : ℚ
  width : ℚ
deriving DecidableEq

/-- Modelled from the spec: the three-tier engine state holding the Hold
Queue, the Pending Queue and the Active Set; the engine source is
missing. The Geometry Index is a derived view of this state (spec
section 3), given by allIds and userIds below. -/
structure DanmakuState where
  holdQueue : List Msg
  pendingQueue : List Msg
  activeMessages : List Active
deriving DecidableEq

/-- Modelled from the spec: the id-to-message view of the Geometry Index,
as the list of ids outstanding in any of the three collections. -/
def allIds (s : DanmakuState) : List String :=
  s.holdQueue.map Msg.id ++ s.pendingQueue.map Msg.id ++
    s.activeMessages.map (fun a => a.msg.id)

/-- Modelled from the spec: the username view of the Geometry Index, the
ids outstanding for a case-folded username. -/
def userIds (s : DanmakuState) (u : String) : List String :=
  (s.holdQueue.filter (fun m => jsToLower m.username = u)).map Msg.id ++
    (s.pendingQueue.filter (fun m => jsToLower m.username = u)).map Msg.id ++
    (s.activeMessages.filter (fun a => jsToLower a.msg.username = u)).map (fun a => a.msg.id)

/-- Modelled from the spec: the Rate Controller step table mapping the
Pending Queue depth to a speed multiplier (section 4.2); the engine
source is missing. -/
def speedMultiplier (pendingDepth : ℕ) : ℚ :=
  if pendingDepth ≤ 2 then 1
  else if pendingDepth ≤ 7 then 6/5
  else if pendingDepth ≤ 14 then 7/5
  else if pendingDepth ≤ 24 then 17/10
  else 2

/-- Modelled from the spec: the overtake check wouldOvertake of the
Placement Engine (sections 4.3 and 9): when the follower is faster, the
catch-up time (leaderX - followerX) / (followerSpeed - leaderSpeed) is
compared against the leader time-to-exit (leaderX + leaderWidth) /
leaderSpeed, rejecting when the former is smaller; the engine source is
missing. -/
def wouldOvertake (leaderX leaderWidth leaderSpeed followerX followerSpeed : ℚ) : Bool :=
  if leaderSpeed < followerSpeed then
    decide ((leaderX - followerX) / (followerSpeed - leaderSpeed) <
      (leaderX + leaderWidth) / leaderSpeed)
  else false

/-- Modelled from the spec: the placement configuration read per
operation: row count, viewport width (the spawn x position), the spawn
gap H_GAP, base speed, the user speed multiplier, and the external
synchronous width-measurement primitive. -/
structure PlacementConfig where
  rowCount : ℕ
  viewportW : ℚ
  hGap : ℚ
  baseSpeed : ℚ
  userSpeedMult : ℚ
  measureWidth : Msg → ℚ

/-- Modelled from the spec: the initial spawn gap check
hasInitialSpawnGap (section 4.3): the newest active message of the target
row must be at least H_GAP pixels clear of the spawn point at the
viewport right edge; the engine source is missing. The newest message is
the last in insertion order. -/
def spawnGapOk (cfg : PlacementConfig) (rowMsgs : List Active) : Bool :=
  match rowMsgs.getLast? with
  | none => true
  | some a => decide (a.x + a.width ≤ cfg.viewportW - cfg.hGap)

/-- Modelled from the spec: the per-row acceptance test of tryPlace
(section 4.3). Rows are discrete lanes, so the vertical overlap check is
satisfied by lane construction; the row passes when the spawn gap check
passes and no active message of the row would be overtaken. An empty row
trivially passes. The engine source is missing. -/
def rowCheck (cfg : PlacementConfig) (rowMsgs : List Active) (followerSpeed : ℚ) : Bool :=
  spawnGapOk cfg rowMsgs &&
    rowMsgs.all (fun a => !wouldOvertake a.x a.width a.speed cfg.viewportW followerSpeed)

/-- Modelled from the spec: the active messages assigned to a row. -/
def activesInRow (s : DanmakuState) (r : ℕ) : List Active :=
  s.activeMessages.filter (fun a => a.row = r)

/-- Modelled from the spec: tryPlace (section 4.3): scan the candidate
rows in deterministic top-to-bottom order and select the first row that
passes rowCheck, assigning the spawn position at the viewport right edge,
the given speed and the measured width; none when no row qualifies. The
engine source is missing. -/
def tryPlace (cfg : PlacementConfig) (s : DanmakuState) (m : Msg) (speed : ℚ) : Option Active :=
  ((List.range cfg.rowCount).find? (fun r => rowCheck cfg (activesInRow s r) speed)).map
    (fun r => ⟨m, r, cfg.viewportW, speed, cfg.measureWidth m⟩)

/-- Modelled from the spec: the intake operation of section 4.1, which
appends the message to the Hold Queue with holdReleaseAt = now +
HOLD_DELAY_MS; the engine source is missing. -/
def enqueueHold (id username : String) (now : ℚ) (s : DanmakuState) : DanmakuState :=
  ⟨s.holdQueue ++ [⟨id, username, now, now + HOLD_DELAY_MS, none⟩],
   s.pendingQueue, s.activeMessages⟩

/-- Modelled from the spec: records the pending-enqueue timestamp of
section 3 on hold-to-pending transfer. -/
def setPendingAt (now : ℚ) (m : Msg) : Msg :=
  ⟨m.id, m.username, m.arrivalAt, m.holdReleaseAt, some now⟩

/-- Modelled from the spec: one arrival into the bounded Pending Queue
(section 4.2): dropped when the queue already holds MAX_PENDING
messages, appended otherwise; the engine source is missing. -/
def pushPending (q : List Msg) (m : Msg) : List Msg :=
  if MAX_PENDING ≤ q.length then q else q ++ [m]

/-- Modelled from the spec: the per-frame hold-to-pending promotion of
section 4.1: the time-ordered Hold Queue prefix whose holdReleaseAt has
passed is popped and pushed in order into the bounded Pending Queue; the
engine source is missing. -/
def promoteHold (now : ℚ) (s : DanmakuState) : DanmakuState :=
  ⟨s.holdQueue.dropWhile (fun m => m.holdReleaseAt ≤ now),
   ((s.holdQueue.takeWhile (fun m => m.holdReleaseAt ≤ now)).map
     (setPendingAt now)).foldl pushPending s.pendingQueue,
   s.activeMessages⟩

/-- Modelled from the spec: one budgeted placement attempt (sections 4.2
and 4.3): the front pending message is attempted with speed baseSpeed
times the Rate Controller multiplier times the user multiplier; on
success it moves to the Active Set, otherwise it stays at the front of
the Pending Queue; the engine source is missing. -/
def placeOne (cfg : PlacementConfig) (s : DanmakuState) : DanmakuState :=
  match s.pendingQueue with
  | [] => s
  | m :: rest =>
    match tryPlace cfg s m
      (cfg.baseSpeed * speedMultiplier (m :: rest).length * cfg.userSpeedMult) with
    | some a => ⟨s.holdQueue, rest, s.activeMessages ++ [a]⟩
    | none => s

/-- Modelled from the spec: the Motion Update of section 4.4: every
active message moves by speed times deltaTimeSeconds and messages fully
past the left edge (x + width < 0) are removed; the engine source is
missing. -/
def motionUpdate (dt : ℚ) (s : DanmakuState) : DanmakuState :=
  ⟨s.holdQueue, s.pendingQueue,
   (s.activeMessages.map (fun a => ⟨a.msg, a.row, a.x - a.speed * dt, a.speed, a.width⟩)).filter
     (fun a => !decide (a.x + a.width < 0))⟩

/-- Modelled from the spec: deleteById of section 4.5, removing the id
from whichever of the three collections contains it (a no-op for an
unknown id); the engine source is missing. -/
def deleteById (id : String) (s : DanmakuState) : DanmakuState :=
  ⟨s.holdQueue.filter (fun m => m.id ≠ id),
   s.pendingQueue.filter (fun m => m.id ≠ id),
   s.activeMessages.filter (fun a => a.msg.id ≠ id)⟩

/-- Modelled from the spec: deleteByUser of section 4.5, removing every
outstanding message of the case-folded username; the engine source is
missing. -/
def deleteByUser (u : String) (s : DanmakuState) : DanmakuState :=
  ⟨s.holdQueue.filter (fun m => jsToLower m.username ≠ jsToLower u),
   s.pendingQueue.filter (fun m => jsToLower m.username ≠ jsToLower u),
   s.activeMessages.filter (fun a => jsToLower a.msg.username ≠ jsToLower u)⟩

/-- Modelled from the spec: clearAll of section 4.5, emptying all three
collections unconditionally; the engine source is missing. -/
def clearAll (_s : DanmakuState) : DanmakuState := ⟨[], [], []⟩

/-- The empty engine state. -/
def initState : DanmakuState := ⟨[], [], []⟩

/-- Modelled from the spec: the operations that mutate the engine state
(sections 4.1-4.5); the engine source is missing. -/
inductive Op where
  | intake (id username : String) (now : ℚ)
  | promote (now : ℚ)
  | place
  | motion (dt : ℚ)
  | removeId (id : String)
  | removeUser (u : String)
  | clear

/-- Modelled from the spec: the effect of one operation on the engine
state. -/
def applyOp (cfg : PlacementConfig) : Op → DanmakuState → DanmakuState
  | .intake id username now, s => enqueueHold id username now s
  | .promote now, s => promoteHold now s
  | .place, s => placeOne cfg s
  | .motion dt, s => motionUpdate dt s
  | .removeId id, s => deleteById id s
  | .removeUser u, s => deleteByUser u s
  | .clear, s => clearAll s

/-- Side condition of an operation: intake carries a message with a fresh
unique id (spec section 3, message identity); every other operation is
unconditional. -/
def opOK : Op → DanmakuState → Prop
  | .intake id _ _, s => id ∉ allIds s
  | _, _ => True

/-- Runs a list of operations from a state. -/
def runOps (cfg : PlacementConfig) (ops : List Op) (s : DanmakuState) : DanmakuState :=
  ops.foldl (fun t op => applyOp cfg op t) s

/-- All side conditions hold along a run. -/
def traceOK (cfg : PlacementConfig) : List Op → DanmakuState → Prop
  | [], _ => True
  | op :: ops, s => opOK op s ∧ traceOK cfg ops (applyOp cfg op s)

/-- The exclusivity invariant: no message id occurs twice across the Hold
Queue, the Pending Queue and the Active Set. -/
def idsExclusive (s : DanmakuState) : Prop := (allIds s).Nodup

/-- The hold-time invariant: every held message carries holdReleaseAt =
arrivalAt + HOLD_DELAY_MS, and every pending or active message was
promoted at a time at least HOLD_DELAY_MS after its arrival. -/
def timesOK (s : DanmakuState) : Prop :=
  (∀ m ∈ s.holdQueue, m.holdReleaseAt = m.arrivalAt + HOLD_DELAY_MS) ∧
  (∀ m ∈ s.pendingQueue, ∃ t, m.pendingAt = some t ∧ m.arrivalAt + HOLD_DELAY_MS ≤ t) ∧
  (∀ a ∈ s.activeMessages, ∃ t, a.msg.pendingAt = some t ∧ a.msg.arrivalAt + HOLD_DELAY_MS ≤ t)

/-- A concrete message for witnesses. -/
def wMsg : Msg := ⟨"m1", "alice", 0, 5000, none⟩

/-- A concrete already-pending message for witnesses. -/
def wOld : Msg := ⟨"m0", "bob", 0, 5000, some 5000⟩

/-- A concrete placement configuration for witnesses. -/
def wCfg : PlacementConfig := ⟨10, 1920, 10, 100, 1, fun _ => 200⟩

/-- A concrete active leader message for witnesses. -/
def wLeader : Active := ⟨wOld, 0, 500, 100, 60⟩

/-- C8: for every viewport height H, the danmaku base font size equals
min(max(0.035 * H, 24), 100) and always lies within [24, 100] pixels. -/
theorem danmakuBaseFontSize_formula (H : ℚ) :
    calculateDanmakuBaseFontSize H = min (max ((7/200) * H) 24) 100 ∧
    24 ≤ calculateDanmakuBaseFontSize H ∧ calculateDanmakuBaseFontSize H ≤ 100 := by
  refine ⟨by rw [calculateDanmakuBaseFontSize, calculateResponsiveFontSize, mul_comm], ?_, ?_⟩
  · exact le_min (le_max_right _ _) (by norm_num)
  · exact min_le_right _ _

/-- C9: over a blocklist produced by validateBlocklistSettings, isBlocked
returns true exactly when the lowercase form of the username is among the
blocklist entries, and two usernames with the same lowercase form get the
same answer. -/
theorem isBlocked_case_folded (bl : Option (List String)) (u v : String)
    (h : jsToLower u = jsToLower v) :
    (isBlocked u (validateBlocklistSettings bl).usernames = true ↔
      jsToLower u ∈ (validateBlocklistSettings bl).usernames) ∧
    isBlocked u (validateBlocklistSettings bl).usernames =
      isBlocked v (validateBlocklistSettings bl).usernames := by
  constructor
  · rw [isBlocked]
    split
    · rename_i hemp
      rw [List.isEmpty_iff] at hemp
      simp [hemp]
    · simp [List.contains]
  · rw [isBlocked, isBlocked, h]

/-- C9 witness: a concrete uppercase variant of a blocked name. -/
theorem isBlocked_case_folded_witness :
    jsToLower "ALICE" = jsToLower "Alice" ∧
    ((isBlocked "ALICE" (validateBlocklistSettings (some ["Alice"])).usernames = true ↔
      jsToLower "ALICE" ∈ (validateBlocklistSettings (some ["Alice"])).usernames) ∧
    isBlocked "ALICE" (validateBlocklistSettings (some ["Alice"])).usernames =
      isBlocked "Alice" (validateBlocklistSettings (some ["Alice"])).usernames) :=
  ⟨by decide, isBlocked_case_folded (some ["Alice"]) "ALICE" "Alice" (by decide)⟩

/-- C10: validateDanmakuSettings is total over arbitrary input by
construction; for every input its speedMult lies in [0.25, 3.0] and its
scaleModifier lies in [0.5, 2.0], and absent, NaN or Infinity values fall
back to the default 1.0. -/
theorem validateDanmakuSettings_bounds (strToNum : String → JSNum)
    (settings : Option DanmakuRaw) :
    RANGES_SPEED_MULT.min ≤ (validateDanmakuSettings strToNum settings).speedMult ∧
    (validateDanmakuSettings strToNum settings).speedMult ≤ RANGES_SPEED_MULT.max ∧
    RANGES_SCALE_MODIFIER.min ≤ (validateDanmakuSettings strToNum settings).scaleModifier ∧
    (validateDanmakuSettings strToNum settings).scaleModifier ≤ RANGES_SCALE_MODIFIER.max ∧
    (validateDanmakuSettings strToNum none).speedMult = 1 ∧
    (validateDanmakuSettings strToNum none).scaleModifier = 1 ∧
    (validateDanmakuSettings strToNum
      (some ⟨.undefined, .num .nan, .num .posInf, .undefined, .undefined, .undefined, .undefined⟩)).speedMult = 1 ∧
    (validateDanmakuSettings strToNum
      (some ⟨.undefined, .num .nan, .num .posInf, .undefined, .undefined, .undefined, .undefined⟩)).scaleModifier = 1 := by
  have hclamp : ∀ v lo hi : ℚ, lo ≤ hi → lo ≤ clamp v lo hi ∧ clamp v lo hi ≤ hi := by
    intro v lo hi hle
    exact ⟨le_min (le_max_right _ _) hle, min_le_right _ _⟩
  refine ⟨?_, ?_, ?_, ?_, ?_, ?_, ?_, ?_⟩
  · exact (hclamp _ _ _ (by norm_num [RANGES_SPEED_MULT])).1
  · exact (hclamp _ _ _ (by norm_num [RANGES_SPEED_MULT])).2
  · exact (hclamp _ _ _ (by norm_num [RANGES_SCALE_MODIFIER])).1
  · exact (hclamp _ _ _ (by norm_num [RANGES_SCALE_MODIFIER])).2
  · simp [validateDanmakuSettings, getField, parseNumber, toNumber, clamp,
      DEFAULTS_SPEED_MULT, RANGES_SPEED_MULT]
    norm_num
  · simp [validateDanmakuSettings, getField, parseNumber, toNumber, clamp,
      DEFAULTS_SCALE_MODIFIER, RANGES_SCALE_MODIFIER]
    norm_num
  · simp [validateDanmakuSettings, getField, parseNumber, toNumber, clamp,
      DEFAULTS_SPEED_MULT, RANGES_SPEED_MULT]
    norm_num
  · simp [validateDanmakuSettings, getField, parseNumber, toNumber, clamp,
      DEFAULTS_SCALE_MODIFIER, RANGES_SCALE_MODIFIER]
    norm_num

/-- C7: a chat event whose payload is null or lacks a truthy message id
or text is rejected at intake: normalizeChatMessage returns null and
handleChatMessage tracks no credits and forwards nothing. -/
theorem intake_rejects_malformed (blocklist : List String) (data : Option ChatData)
    (h : data = none ∨ ∃ d, data = some d ∧
      (strFalsy d.messageId = true ∨ strFalsy d.text = true)) :
    normalizeChatMessage data = none ∧
    handleChatMessage blocklist data = ⟨false, none⟩ := by
  have hnorm : normalizeChatMessage data = none := by
    rcases h with h | ⟨d, hd, hbad⟩
    · rw [h, normalizeChatMessage]
    · rw [hd, normalizeChatMessage]
      rcases hbad with hb | hb <;> simp [hb]
  exact ⟨hnorm, by rw [handleChatMessage, hnorm]⟩

/-- C7 witness: the null payload is rejected. -/
theorem intake_rejects_malformed_witness :
    (none = (none : Option ChatData) ∨ ∃ d, (none : Option ChatData) = some d ∧
      (strFalsy d.messageId = true ∨ strFalsy d.text = true)) ∧
    (normalizeChatMessage none = none ∧
      handleChatMessage [] none = ⟨false, none⟩) :=
  ⟨Or.inl rfl, intake_rejects_malformed [] none (Or.inl rfl)⟩

lemma speedMultiplier_ge_one (d : ℕ) : 1 ≤ speedMultiplier d := by
  unfold speedMultiplier
  split_ifs <;> norm_num

lemma speedMultiplier_le_two (d : ℕ) : speedMultiplier d ≤ 2 := by
  unfold speedMultiplier
  split_ifs <;> norm_num

lemma speedMultiplier_mono (d e : ℕ) (h : d ≤ e) :
    speedMultiplier d ≤ speedMultiplier e := by
  unfold speedMultiplier
  split_ifs <;> first | omega | norm_num

/-- C4: the Rate Controller returns exactly the step-table multiplier
(1.0 for depth 0-2, 1.2 for 3-7, 1.4 for 8-14, 1.7 for 15-24, 2.0 from
25 on), is monotone in the pending depth, and always lies in
[1.0, 2.0]. -/
theorem speedMultiplier_spec (d e : ℕ) (h : d ≤ e) :
    speedMultiplier d ≤ speedMultiplier e ∧
    1 ≤ speedMultiplier d ∧ speedMultiplier d ≤ 2 ∧
    (d ≤ 2 → speedMultiplier d = 1) ∧
    (3 ≤ d → d ≤ 7 → speedMultiplier d = 6/5) ∧
    (8 ≤ d → d ≤ 14 → speedMultiplier d = 7/5) ∧
    (15 ≤ d → d ≤ 24 → speedMultiplier d = 17/10) ∧
    (25 ≤ d → speedMultiplier d = 2) := by
  refine ⟨speedMultiplier_mono d e h, speedMultiplier_ge_one d, speedMultiplier_le_two d,
    ?_, ?_, ?_, ?_, ?_⟩ <;>
    (intros; unfold speedMultiplier; split_ifs <;> first | rfl | omega)

/-- C4 witness: the step table evaluated at depths 2 and 30. -/
theorem speedMultiplier_spec_witness :
    (2 : ℕ) ≤ 30 ∧
    (speedMultiplier 2 ≤ speedMultiplier 30 ∧
    1 ≤ speedMultiplier 2 ∧ speedMultiplier 2 ≤ 2 ∧
    (2 ≤ 2 → speedMultiplier 2 = 1) ∧
    (3 ≤ 2 → 2 ≤ 7 → speedMultiplier 2 = 6/5) ∧
    (8 ≤ 2 → 2 ≤ 14 → speedMultiplier 2 = 7/5) ∧
    (15 ≤ 2 → 2 ≤ 24 → speedMultiplier 2 = 17/10) ∧
    (25 ≤ 2 → speedMultiplier 2 = 2)) :=
  ⟨by norm_num, speedMultiplier_spec 2 30 (by norm_num)⟩

/-- C1: for a candidate faster than the single active message of a row,
the overtake check rejects exactly when the catch-up time
(leaderX - followerX) / (followerSpeed - leaderSpeed) is smaller than the
leader time-to-exit (leaderX + leaderWidth) / leaderSpeed, and the row is
accepted by tryPlace exactly when the spawn-gap check passes and the
catch-up time is at least the time-to-exit (the vertical check is
satisfied by the discrete-lane construction). -/
theorem tryPlace_overtake_spec (cfg : PlacementConfig) (leader : Active)
    (followerX fSpeed : ℚ) (h : leader.speed < fSpeed) :
    (wouldOvertake leader.x leader.width leader.speed followerX fSpeed = true ↔
      (leader.x - followerX) / (fSpeed - leader.speed) <
        (leader.x + leader.width) / leader.speed) ∧
    (rowCheck cfg [leader] fSpeed = true ↔
      (spawnGapOk cfg [leader] = true ∧
        (leader.x + leader.width) / leader.speed ≤
          (leader.x - cfg.viewportW) / (fSpeed - leader.speed))) := by
  constructor
  · simp [wouldOvertake, h]
  · simp [rowCheck, wouldOvertake, h, not_lt]

/-- C1 witness: a concrete slower leader and faster candidate. -/
theorem tryPlace_overtake_spec_witness :
    wLeader.speed < 200 ∧
    ((wouldOvertake wLeader.x wLeader.width wLeader.speed 1920 200 = true ↔
      (wLeader.x - 1920) / (200 - wLeader.speed) <
        (wLeader.x + wLeader.width) / wLeader.speed) ∧
    (rowCheck wCfg [wLeader] 200 = true ↔
      (spawnGapOk wCfg [wLeader] = true ∧
        (wLeader.x + wLeader.width) / wLeader.speed ≤
          (wLeader.x - wCfg.viewportW) / (200 - wLeader.speed)))) :=
  ⟨by norm_num [wLeader], tryPlace_overtake_spec wCfg wLeader 1920 200 (by norm_num [wLeader])⟩

/-- C5: with the Pending Queue already holding MAX_PENDING messages, the
promotion of one more held message leaves the Pending Queue exactly as it
was (length MAX_PENDING, oldest preserved), and the dropped message id is
no longer findable anywhere; no error is raised since promoteHold is a
total function. -/
theorem pendingFull_drops_newest (s : DanmakuState) (m : Msg) (now : ℚ)
    (hfull : s.pendingQueue.length = MAX_PENDING)
    (hhold : s.holdQueue = [m])
    (hready : m.holdReleaseAt ≤ now)
    (hp : m.id ∉ s.pendingQueue.map Msg.id)
    (ha : m.id ∉ s.activeMessages.map (fun a => a.msg.id)) :
    (promoteHold now s).pendingQueue = s.pendingQueue ∧
    (promoteHold now s).pendingQueue.length = MAX_PENDING ∧
    (promoteHold now s).holdQueue = [] ∧
    m.id ∉ allIds (promoteHold now s) := by
  have hpush : List.foldl pushPending s.pendingQueue [setPendingAt now m] =
      s.pendingQueue := by
    simp [pushPending, hfull]
  have hpend : (promoteHold now s).pendingQueue = s.pendingQueue := by
    rw [promoteHold]
    simp only [hhold, List.takeWhile, List.dropWhile, hready, decide_eq_true_eq, if_pos]
    simpa using hpush
  have hempty : (promoteHold now s).holdQueue = [] := by
    rw [promoteHold]
    simp [hhold, List.dropWhile, hready]
  refine ⟨hpend, by rw [hpend, hfull], hempty, ?_⟩
  rw [allIds, hempty, hpend]
  show m.id ∉ [] ++ _ ++ List.map (fun a => a.msg.id) (promoteHold now s).activeMessages
  have hact : (promoteHold now s).activeMessages = s.activeMessages := by
    rw [promoteHold]
  rw [hact]
  simp only [List.nil_append, List.mem_append]
  rintro (hc | hc)
  · exact hp hc
  · exact ha hc

/-- A concrete full-queue state for the C5 witness. -/
def wFullState : DanmakuState := ⟨[wMsg], List.replicate 600 wOld, []⟩

/-- C5 witness: a concrete state with 600 pending messages and one ready
held message. -/
theorem pendingFull_drops_newest_witness :
    wFullState.pendingQueue.length = MAX_PENDING ∧
    wFullState.holdQueue = [wMsg] ∧
    wMsg.holdReleaseAt ≤ 5000 ∧
    wMsg.id ∉ wFullState.pendingQueue.map Msg.id ∧
    wMsg.id ∉ wFullState.activeMessages.map (fun a => a.msg.id) ∧
    ((promoteHold 5000 wFullState).pendingQueue = wFullState.pendingQueue ∧
    (promoteHold 5000 wFullState).pendingQueue.length = MAX_PENDING ∧
    (promoteHold 5000 wFullState).holdQueue = [] ∧
    wMsg.id ∉ allIds (promoteHold 5000 wFullState)) := by
  have h1 : wFullState.pendingQueue.length = MAX_PENDING := by
    show (List.replicate 600 wOld).length = MAX_PENDING
    rw [List.length_replicate]
    rfl
  have h2 : wFullState.holdQueue = [wMsg] := rfl
  have h3 : wMsg.holdReleaseAt ≤ (5000 : ℚ) := by norm_num [wMsg]
  have h4 : wMsg.id ∉ wFullState.pendingQueue.map Msg.id := by
    show wMsg.id ∉ (List.replicate 600 wOld).map Msg.id
    rw [List.map_replicate, List.mem_replicate]
    decide
  have h5 : wMsg.id ∉ wFullState.activeMessages.map (fun a => a.msg.id) := by
    show wMsg.id ∉ ([] : List Active).map (fun a => a.msg.id)
    simp
  exact ⟨h1, h2, h3, h4, h5, pendingFull_drops_newest wFullState wMsg 5000 h1 h2 h3 h4 h5⟩

/-- C6: deleteById with an id outstanding nowhere leaves the state and
both Geometry Index views unchanged and raises no error (it is a total
function), and a second deleteById with the same id is always a no-op. -/
theorem deleteById_spec (id : String) (s : DanmakuState) (h : id ∉ allIds s) :
    deleteById id s = s ∧
    allIds (deleteById id s) = allIds s ∧
    (∀ u, userIds (deleteById id s) u = userIds s u) ∧
    ∀ s₂ : DanmakuState, deleteById id (deleteById id s₂) = deleteById id s₂ := by
  simp only [allIds, List.mem_append, List.mem_map, not_or, not_exists, not_and] at h
  obtain ⟨⟨hh, hpnd⟩, hact⟩ := h
  have heq : deleteById id s = s := by
    obtain ⟨q1, q2, q3⟩ := s
    rw [deleteById]
    simp only [DanmakuState.mk.injEq]
    refine ⟨List.filter_eq_self.mpr ?_, List.filter_eq_self.mpr ?_,
      List.filter_eq_self.mpr ?_⟩
    · intro a ha
      simpa using hh a ha
    · intro a ha
      simpa using hpnd a ha
    · intro a ha
      simpa using hact a ha
  refine ⟨heq, by rw [heq], fun u => by rw [heq], fun s₂ => ?_⟩
  rw [deleteById, deleteById]
  simp

/-- C6 witness: an unknown id against the empty state. -/
theorem deleteById_spec_witness :
    "zzz" ∉ allIds initState ∧
    (deleteById "zzz" initState = initState ∧
    allIds (deleteById "zzz" initState) = allIds initState ∧
    (∀ u, userIds (deleteById "zzz" initState) u = userIds initState u) ∧
    ∀ s₂ : DanmakuState, deleteById "zzz" (deleteById "zzz" s₂) = deleteById "zzz" s₂) :=
  ⟨by simp [allIds, initState], deleteById_spec "zzz" initState (by simp [allIds, initState])⟩

lemma foldl_pushPending_full (q ms : List Msg) (h : MAX_PENDING ≤ q.length) :
    List.foldl pushPending q ms = q := by
  induction ms with
  | nil => rfl
  | cons m ms ih =>
    rw [List.foldl_cons, show pushPending q m = q from by rw [pushPending, if_pos h]]
    exact ih

lemma foldl_pushPending_eq_take (ms q : List Msg) :
    ∃ k, List.foldl pushPending q ms = q ++ ms.take k := by
  induction ms generalizing q with
  | nil => exact ⟨0, by simp⟩
  | cons m ms ih =>
    by_cases h : MAX_PENDING ≤ q.length
    · exact ⟨0, by rw [foldl_pushPending_full q (m :: ms) h]; simp⟩
    · rw [List.foldl_cons, pushPending, if_neg h]
      obtain ⟨k, hk⟩ := ih (q ++ [m])
      refine ⟨k + 1, ?_⟩
      rw [hk, List.take_succ_cons, List.append_assoc, List.singleton_append]

lemma map_id_setPendingAt (now : ℚ) (l : List Msg) :
    (l.map (setPendingAt now)).map Msg.id = l.map Msg.id := by
  rw [List.map_map]
  rfl

lemma count_map_filter_le {α : Type} (l : List α) (p : α → Bool) (f : α → String)
    (x : String) : ((l.filter p).map f).count x ≤ (l.map f).count x :=
  (List.Sublist.map f (List.filter_sublist l)).count_le x

lemma allIds_count_enqueue (id username : String) (now : ℚ) (s : DanmakuState) (x : String) :
    (allIds (enqueueHold id username now s)).count x =
      (allIds s).count x + List.count x [id] := by
  rw [enqueueHold, allIds, allIds]
  simp only [List.map_append, List.count_append, List.map_cons, List.map_nil]
  omega

lemma allIds_count_promote (now : ℚ) (s : DanmakuState) (x : String) :
    (allIds (promoteHold now s)).count x ≤ (allIds s).count x := by
  obtain ⟨k, hk⟩ := foldl_pushPending_eq_take
    ((s.holdQueue.takeWhile (fun m => m.holdReleaseAt ≤ now)).map (setPendingAt now))
    s.pendingQueue
  have hsplit : s.holdQueue.takeWhile (fun m => m.holdReleaseAt ≤ now) ++
      s.holdQueue.dropWhile (fun m => m.holdReleaseAt ≤ now) = s.holdQueue :=
    List.takeWhile_append_dropWhile _ _
  have htake := List.Sublist.map Msg.id (List.take_sublist k
    ((s.holdQueue.takeWhile (fun m => m.holdReleaseAt ≤ now)).map (setPendingAt now)))
  rw [map_id_setPendingAt] at htake
  have hcount := htake.count_le x
  rw [promoteHold, allIds, allIds]
  conv_rhs => rw [← hsplit]
  rw [hk]
  simp only [List.map_append, List.count_append]
  omega

lemma tryPlace_msg {cfg : PlacementConfig} {s : DanmakuState} {m : Msg} {sp : ℚ}
    {a : Active} (h : tryPlace cfg s m sp = some a) : a.msg = m := by
  rw [tryPlace, Option.map_eq_some'] at h
  obtain ⟨r, _, hr⟩ := h
  rw [← hr]

lemma allIds_count_place (cfg : PlacementConfig) (s : DanmakuState) (x : String) :
    (allIds (placeOne cfg s)).count x ≤ (allIds s).count x := by
  cases hpq : s.pendingQueue with
  | nil =>
    rw [placeOne, hpq]
  | cons m rest =>
    rw [placeOne, hpq]
    cases htp : tryPlace cfg s m
        (cfg.baseSpeed * speedMultiplier (m :: rest).length * cfg.userSpeedMult) with
    | none =>
      simp only [htp]
      exact le_refl _
    | some a =>
      have hm : a.msg = m := tryPlace_msg htp
      simp only [htp]
      rw [allIds, allIds, hpq]
      simp only [List.map_append, List.count_append, List.map_cons, List.map_nil,
        List.count_cons, List.count_nil, hm]
      omega

lemma allIds_count_motion (dt : ℚ) (s : DanmakuState) (x : String) :
    (allIds (motionUpdate dt s)).count x ≤ (allIds s).count x := by
  rw [motionUpdate, allIds, allIds]
  simp only [List.count_append]
  have hsub := count_map_filter_le
    (s.activeMessages.map (fun a => Active.mk a.msg a.row (a.x - a.speed * dt) a.speed a.width))
    (fun a => !decide (a.x + a.width < 0)) (fun a => a.msg.id) x
  have heq : ((s.activeMessages.map
      (fun a => Active.mk a.msg a.row (a.x - a.speed * dt) a.speed a.width)).map
        (fun a => a.msg.id)) = s.activeMessages.map (fun a => a.msg.id) := by
    rw [List.map_map]
    rfl
  rw [heq] at hsub
  omega

lemma allIds_count_deleteById (id : String) (s : DanmakuState) (x : String) :
    (allIds (deleteById id s)).count x ≤ (allIds s).count x := by
  rw [deleteById, allIds, allIds]
  simp only [List.count_append]
  exact Nat.add_le_add (Nat.add_le_add (count_map_filter_le _ _ _ x)
    (count_map_filter_le _ _ _ x)) (count_map_filter_le _ _ _ x)

lemma allIds_count_deleteByUser (u : String) (s : DanmakuState) (x : String) :
    (allIds (deleteByUser u s)).count x ≤ (allIds s).count x := by
  rw [deleteByUser, allIds, allIds]
  simp only [List.count_append]
  exact Nat.add_le_add (Nat.add_le_add (count_map_filter_le _ _ _ x)
    (count_map_filter_le _ _ _ x)) (count_map_filter_le _ _ _ x)

lemma applyOp_preserves_exclusive (cfg : PlacementConfig) (op : Op) (s : DanmakuState)
    (hinv : idsExclusive s) (hok : opOK op s) : idsExclusive (applyOp cfg op s) := by
  rw [idsExclusive, List.nodup_iff_count_le_one] at hinv ⊢
  intro x
  cases op with
  | intake id username now =>
    simp only [opOK] at hok
    simp only [applyOp]
    rw [allIds_count_enqueue]
    rcases eq_or_ne x id with rfl | hne
    · have hc : (allIds s).count x = 0 := List.count_eq_zero_of_not_mem hok
      have hone : List.count x [x] = 1 := by simp
      omega
    · have hzero : List.count x [id] = 0 := by simp [hne]
      have := hinv x
      omega
  | promote now =>
    exact le_trans (allIds_count_promote now s x) (hinv x)
  | place =>
    exact le_trans (allIds_count_place cfg s x) (hinv x)
  | motion dt =>
    exact le_trans (allIds_count_motion dt s x) (hinv x)
  | removeId id =>
    exact le_trans (allIds_count_deleteById id s x) (hinv x)
  | removeUser u =>
    exact le_trans (allIds_count_deleteByUser u s x) (hinv x)
  | clear =>
    simp [applyOp, clearAll, allIds]

lemma runOps_preserves_exclusive (cfg : PlacementConfig) (ops : List Op) (s : DanmakuState)
    (htr : traceOK cfg ops s) (hinv : idsExclusive s) :
    idsExclusive (runOps cfg ops s) := by
  induction ops generalizing s with
  | nil => exact hinv
  | cons op ops ih =>
    obtain ⟨h1, h2⟩ := htr
    exact ih (applyOp cfg op s) h2 (applyOp_preserves_exclusive cfg op s hinv h1)

/-- C2: each message id is held by at most one of the Hold Queue, the
Pending Queue and the Active Set: every operation (intake of a fresh id,
promotion, placement, motion update, deleteById, deleteByUser, clearAll)
preserves the exclusivity invariant, and the invariant holds in every
state reachable from the initial state. -/
theorem exclusivity_invariant (cfg : PlacementConfig) :
    (∀ op s, idsExclusive s → opOK op s → idsExclusive (applyOp cfg op s)) ∧
    (∀ ops, traceOK cfg ops initState → idsExclusive (runOps cfg ops initState)) :=
  ⟨fun op s h1 h2 => applyOp_preserves_exclusive cfg op s h1 h2,
   fun ops htr => runOps_preserves_exclusive cfg ops initState htr
     (by rw [idsExclusive]; simp [allIds, initState])⟩

/-- C2 witness: the clearAll operation applied to the empty state. -/
theorem exclusivity_invariant_witness :
    idsExclusive initState ∧ opOK Op.clear initState ∧
    idsExclusive (applyOp wCfg Op.clear initState) :=
  ⟨by rw [idsExclusive]; simp [allIds, initState],
   trivial,
   (exclusivity_invariant wCfg).1 Op.clear initState
     (by rw [idsExclusive]; simp [allIds, initState]) trivial⟩

lemma mem_foldl_pushPending {m : Msg} {q ms : List Msg}
    (h : m ∈ List.foldl pushPending q ms) : m ∈ q ∨ m ∈ ms := by
  obtain ⟨k, hk⟩ := foldl_pushPending_eq_take ms q
  rw [hk, List.mem_append] at h
  rcases h with h | h
  · exact Or.inl h
  · exact Or.inr ((List.take_sublist k ms).subset h)

lemma applyOp_preserves_times (cfg : PlacementConfig) (op : Op) (s : DanmakuState)
    (hs : timesOK s) : timesOK (applyOp cfg op s) := by
  obtain ⟨hH, hP, hA⟩ := hs
  cases op with
  | intake id username now =>
    simp only [applyOp, enqueueHold]
    refine ⟨?_, hP, hA⟩
    intro m hm
    rw [List.mem_append, List.mem_singleton] at hm
    rcases hm with hm | hm
    · exact hH m hm
    · subst hm
      rfl
  | promote now =>
    simp only [applyOp, promoteHold]
    refine ⟨?_, ?_, hA⟩
    · intro m hm
      exact hH m ((List.dropWhile_sublist _).subset hm)
    · intro m hm
      rcases mem_foldl_pushPending hm with hm | hm
      · exact hP m hm
      · rw [List.mem_map] at hm
        obtain ⟨m0, hm0, rfl⟩ := hm
        have hpred := List.mem_takeWhile_imp hm0
        have hle : m0.holdReleaseAt ≤ now := of_decide_eq_true hpred
        have hin : m0 ∈ s.holdQueue := (List.takeWhile_sublist _).subset hm0
        have heq := hH m0 hin
        refine ⟨now, rfl, ?_⟩
        have harr : (setPendingAt now m0).arrivalAt = m0.arrivalAt := rfl
        rw [harr, ← heq]
        exact hle
  | place =>
    simp only [applyOp]
    cases hpq : s.pendingQueue with
    | nil =>
      rw [placeOne, hpq]
      exact ⟨hH, hP, hA⟩
    | cons m rest =>
      rw [placeOne, hpq]
      cases htp : tryPlace cfg s m
          (cfg.baseSpeed * speedMultiplier (m :: rest).length * cfg.userSpeedMult) with
      | none =>
        simp only [htp]
        exact ⟨hH, hP, hA⟩
      | some a =>
        simp only [htp]
        refine ⟨hH, ?_, ?_⟩
        · intro m1 hm1
          exact hP m1 (by rw [hpq]; exact List.mem_cons_of_mem _ hm1)
        · intro a1 ha1
          rw [List.mem_append, List.mem_singleton] at ha1
          rcases ha1 with h | h
          · exact hA a1 h
          · subst h
            rw [tryPlace_msg htp]
            exact hP m (by rw [hpq]; exact List.mem_cons_self _ _)
  | motion dt =>
    simp only [applyOp, motionUpdate]
    refine ⟨hH, hP, ?_⟩
    intro a ha
    have ha2 := (List.filter_sublist _).subset ha
    rw [List.mem_map] at ha2
    obtain ⟨a0, ha0, heq⟩ := ha2
    rw [← heq]
    exact hA a0 ha0
  | removeId id =>
    simp only [applyOp, deleteById]
    refine ⟨?_, ?_, ?_⟩
    · intro m1 h1
      exact hH m1 (List.mem_filter.mp h1).1
    · intro m1 h1
      exact hP m1 (List.mem_filter.mp h1).1
    · intro a1 h1
      exact hA a1 (List.mem_filter.mp h1).1
  | removeUser u =>
    simp only [applyOp, deleteByUser]
    refine ⟨?_, ?_, ?_⟩
    · intro m1 h1
      exact hH m1 (List.mem_filter.mp h1).1
    · intro m1 h1
      exact hP m1 (List.mem_filter.mp h1).1
    · intro a1 h1
      exact hA a1 (List.mem_filter.mp h1).1
  | clear =>
    simp only [applyOp, clearAll]
    exact ⟨by simp, by simp, by simp⟩

lemma runOps_preserves_times (cfg : PlacementConfig) (ops : List Op) (s : DanmakuState)
    (hs : timesOK s) : timesOK (runOps cfg ops s) := by
  induction ops generalizing s with
  | nil => exact hs
  | cons op ops ih => exact ih _ (applyOp_preserves_times cfg op s hs)

/-- C3: in every state reachable by any sequence of operations from the
initial state, every held message carries holdReleaseAt = arrivalAt +
HOLD_DELAY_MS and every pending or active message was promoted no earlier
than HOLD_DELAY_MS after its arrival; since intake is the only operation
that admits a message and it always goes through the Hold Queue, no
admission path bypasses the hold stage. -/
theorem holdDelay_enforced (cfg : PlacementConfig) (ops : List Op) :
    timesOK (runOps cfg ops initState) :=
  runOps_preserves_times cfg ops initState
    ⟨by simp [initState], by simp [initState], by simp [initState]⟩

end ShookieSuite
